import Mathlib

/-!
Verification of the SunWeb HTTP/1.1 message wire-format codec.

Bytes on the wire are modelled as `Char` values (one character per octet),
so a wire stream is a `List Char`, a header value is a `String`, and a
message body is a `List Char`.  Machine strings from the Rust source are
`String`.  All functions are executable: recursion is structural, with an
explicit fuel argument where the Rust code loops on a shrinking buffer.
-/

set_option autoImplicit false

namespace SunWeb

/-- Optional whitespace recognised around header values (space and tab). -/
def isWS (c : Char) : Bool := decide (c = ' ' ∨ c = '\t')

/-- Modelled from the spec: token characters permitted in header names
(RFC 7230 `tchar`); anything outside this set in a name is `MalformedHeader`. -/
def isTokenChar (c : Char) : Bool :=
  c.isAlphanum ||
    ['!', '#', '$', '%', '&', Char.ofNat 39, '*', '+', '-', '.',
      '^', '_', Char.ofNat 96, '|', '~'].contains c

/-- ASCII lower-casing of a single character. -/
def lowerChar (c : Char) : Char :=
  if 'A' ≤ c ∧ c ≤ 'Z' then Char.ofNat (c.toNat + 32) else c

/-- ASCII lower-casing of a string, used for case-insensitive name lookup. -/
def lowerStr (s : String) : String := String.mk (s.data.map lowerChar)

/-- Modelled from the spec: the `header` module (`HTTPHeader`, the HeaderMap)
is declared in the source but its file is not under `src/`; per §3 it is an
ordered multimap of name/value pairs with ASCII case-insensitive names. -/
structure HTTPHeader where
  entries : List (String × String)
deriving Repr, DecidableEq

/-- Modelled from the spec: `insert` appends an entry, never replaces. -/
def HTTPHeader.insert (h : HTTPHeader) (n v : String) : HTTPHeader :=
  ⟨h.entries ++ [(n, v)]⟩

/-- Modelled from the spec: all values stored under a (case-insensitive)
name, in insertion order. -/
def HTTPHeader.get_all (h : HTTPHeader) (n : String) : List String :=
  (h.entries.filter (fun p => decide (lowerStr p.1 = lowerStr n))).map Prod.snd

/-- Modelled from the spec: first value stored under a name. -/
def HTTPHeader.get_first (h : HTTPHeader) (n : String) : Option String :=
  (h.get_all n).head?

/-- Modelled from the spec: membership test by case-insensitive name. -/
def HTTPHeader.containsName (h : HTTPHeader) (n : String) : Bool :=
  !(h.get_all n).isEmpty

/-- Modelled from the spec: `remove` drops every entry with the name. -/
def HTTPHeader.remove (h : HTTPHeader) (n : String) : HTTPHeader :=
  ⟨h.entries.filter (fun p => !decide (lowerStr p.1 = lowerStr n))⟩

/-- Modelled from the spec: `set` removes all entries with the name, then
inserts a single one. -/
def HTTPHeader.set (h : HTTPHeader) (n v : String) : HTTPHeader :=
  (h.remove n).insert n v

/-- Modelled from the spec: number of stored entries. -/
def HTTPHeader.len (h : HTTPHeader) : Nat := h.entries.length

/-- From the source (`src/webserver/http_packet/mod.rs`): an HTTP message
without semantic interpretation; exactly a protocol-version string, a
header map, and an optional byte body (`Option<Vec<u8>>`). -/
structure HTTPMessage where
  http_version : String
  headers : HTTPHeader
  body : Option (List Char)
deriving Repr, DecidableEq

/-- From the source: `HTTPMessage::new` builds a message with the given
version and headers and an empty (`None`) body. -/
def HTTPMessage.new (http_version : String) (headers : HTTPHeader) : HTTPMessage :=
  { http_version := http_version, headers := headers, body := Option.none }

/-! ### Shared header storage (cheap clone / copy-on-write)

Modelled from the spec §9: header storage is shared behind a
reference-counted handle; cloning a message copies the handle, and a
mutation materialises a private copy of the storage (copy-on-write), so the
original's view is never affected. The heap of live storages is explicit. -/

/-- Modelled from the spec: the collection of live header storages; a
handle designates one of them by index. -/
structure HeaderHeap where
  stores : List (List (String × String))

/-- Modelled from the spec: a reference-counted handle to shared header
storage. -/
structure HeaderHandle where
  idx : Nat

/-- The header entries a handle currently sees. -/
def HeaderHeap.readH (H : HeaderHeap) (h : HeaderHandle) : List (String × String) :=
  H.stores.getD h.idx []

/-- Cloning a handle is cheap: it shares the same storage. -/
def cloneHandle (h : HeaderHandle) : HeaderHandle := h

/-- A message whose headers live behind a shared handle. -/
structure SharedMessage where
  http_version : String
  headers : HeaderHandle
  body : Option (List Char)

/-- Cloning a message: the header handle is shared, the body is duplicated
as a value. -/
def cloneMessage (m : SharedMessage) : SharedMessage :=
  { m with headers := cloneHandle m.headers }

/-- Modelled from the spec: copy-on-write header insertion — the mutated
message gets a fresh private storage holding the updated entries; existing
storages are untouched. -/
def cowInsert (H : HeaderHeap) (m : SharedMessage) (n v : String) :
    HeaderHeap × SharedMessage :=
  (⟨H.stores ++ [H.readH m.headers ++ [(n, v)]]⟩,
    { m with headers := ⟨H.stores.length⟩ })

/-- Replacing the body of a message (the body is owned, not shared). -/
def setBody (m : SharedMessage) (b : Option (List Char)) : SharedMessage :=
  { m with body := b }

/-! ### Wire-level building blocks -/

/-- The CR LF line terminator. -/
def crlf : List Char := ['\r', '\n']

/-- Splits a byte stream at the first CR LF pair: the line's content and the
bytes after the terminator; `none` when no CR LF is present yet. -/
def splitCRLF : List Char → Option (List Char × List Char)
  | [] => none
  | [_] => none
  | c :: d :: rest =>
    if c = '\r' ∧ d = '\n' then some ([], rest)
    else (splitCRLF (d :: rest)).map (fun p => (c :: p.1, p.2))

/-- Splits at the first occurrence of a separator character. -/
def splitOn1 (sep : Char) : List Char → Option (List Char × List Char)
  | [] => none
  | c :: rest =>
    if c = sep then some ([], rest)
    else (splitOn1 sep rest).map (fun p => (c :: p.1, p.2))

/-- Splits a list into the runs between occurrences of a separator
(fuel-driven; the fuel bounds the number of separators processed). -/
def splitAllFuel (sep : Char) : Nat → List Char → List (List Char)
  | 0, l => [l]
  | fuel + 1, l =>
    match splitOn1 sep l with
    | Option.none => [l]
    | some (a, rest) => a :: splitAllFuel sep fuel rest

/-- Splits a list at every occurrence of a separator. -/
def splitAll (sep : Char) (l : List Char) : List (List Char) :=
  splitAllFuel sep l.length l

/-- Strips optional leading and trailing whitespace (the parser applies
this to header values per the wire grammar). -/
def trimOWS (l : List Char) : List Char :=
  ((l.dropWhile isWS).reverse.dropWhile isWS).reverse

/-- Decimal digit character for a value below ten. -/
def digitChar (n : Nat) : Char := Char.ofNat (48 + n)

/-- Hexadecimal digit character (lowercase) for a value below sixteen. -/
def hexDigitChar (n : Nat) : Char :=
  if n < 10 then Char.ofNat (48 + n) else Char.ofNat (87 + n)

/-- Value of a decimal digit character. -/
def digitVal (c : Char) : Nat := c.toNat - 48

/-- Recognises a hexadecimal digit (either case). -/
def isHexDig (c : Char) : Bool :=
  c.isDigit || decide (97 ≤ c.toNat ∧ c.toNat ≤ 102) ||
    decide (65 ≤ c.toNat ∧ c.toNat ≤ 70)

/-- Value of a hexadecimal digit character. -/
def hexDigitVal (c : Char) : Nat :=
  if c.isDigit then c.toNat - 48
  else if 97 ≤ c.toNat then c.toNat - 87
  else c.toNat - 55

/-- Value of a decimal digit string. -/
def decVal (l : List Char) : Nat := l.foldl (fun a c => a * 10 + digitVal c) 0

/-- Value of a hexadecimal digit string. -/
def hexVal (l : List Char) : Nat := l.foldl (fun a c => a * 16 + hexDigitVal c) 0

/-- Decimal rendering of a natural number (fuel-driven). -/
def toDecFuel : Nat → Nat → List Char
  | 0, _ => []
  | fuel + 1, n =>
    if n < 10 then [digitChar n]
    else toDecFuel fuel (n / 10) ++ [digitChar (n % 10)]

/-- Decimal rendering of a natural number. -/
def toDec (n : Nat) : List Char := toDecFuel (n + 1) n

/-- Hexadecimal rendering of a natural number (fuel-driven). -/
def toHexFuel : Nat → Nat → List Char
  | 0, _ => []
  | fuel + 1, n =>
    if n < 16 then [hexDigitChar n]
    else toHexFuel fuel (n / 16) ++ [hexDigitChar (n % 16)]

/-- Hexadecimal rendering of a natural number. -/
def toHex (n : Nat) : List Char := toHexFuel (n + 1) n

/-! ### Errors, start lines, framing -/

/-- Modelled from the spec §7: the codec's error kinds. -/
inductive HTTPError where
  | malformedStartLine
  | malformedHeader
  | invalidContentLength
  | malformedChunk
  | unexpectedEof
  | messageTooLarge
  | lengthMismatch
deriving Repr, DecidableEq

/-- Modelled from the spec §3: a start line is either a request line or a
status line. -/
inductive StartLine where
  | request (method target version : String)
  | status (version : String) (code : Nat) (reason : String)
deriving Repr, DecidableEq

/-- The version field of a start line. -/
def versionOf : StartLine → String
  | .request _ _ v => v
  | .status v _ _ => v

/-- Whether a start line is a request line. -/
def isRequestSL : StartLine → Bool
  | .request _ _ _ => true
  | .status _ _ _ => false

/-- Modelled from the spec §3: the closed set of versions recognised on the
wire; anything else is a parse error. -/
def versionOk (v : String) : Prop := v = "HTTP/1.0" ∨ v = "HTTP/1.1"

instance (v : String) : Decidable (versionOk v) := by
  unfold versionOk; infer_instance

/-- Modelled from the spec §3: the derived body-framing discipline. -/
inductive BodyFraming where
  | none
  | fixed (length : Nat)
  | chunked
  | untilClose
deriving Repr, DecidableEq

/-- A Content-Length value must be a non-empty string of decimal digits. -/
def clOk (v : String) : Bool := !v.data.isEmpty && v.data.all Char.isDigit

/-- Modelled from the spec §4.3: all transfer codings listed by the
Transfer-Encoding headers, split on commas, trimmed and lower-cased, in
order. -/
def teCodings (h : HTTPHeader) : List String :=
  ((h.get_all "Transfer-Encoding").map
    (fun v => (splitAll ',' v.data).map (fun c => lowerStr (String.mk (trimOWS c))))).flatten

/-- Modelled from the spec §4.3: the body-framing decision rule.
Transfer-Encoding ending in `chunked` wins; otherwise Content-Length
(rejecting non-numeric or conflicting values); otherwise `UntilClose` for
responses and `none` for requests. -/
def classify (isReq : Bool) (h : HTTPHeader) : Except HTTPError BodyFraming :=
  if (teCodings h).getLast? = some "chunked" then .ok .chunked
  else
    match h.get_all "Content-Length" with
    | [] => .ok (if isReq then .none else .untilClose)
    | c :: rest =>
      if (c :: rest).all clOk then
        if rest.all (fun v => decVal v.data == decVal c.data) then
          .ok (.fixed (decVal c.data))
        else .error .invalidContentLength
      else .error .invalidContentLength

/-! ### Start-line parsing and the decoded message -/

/-- Modelled from the spec §4.2: a request line splits on the first two
single spaces into method, target and version; fewer than two spaces, an
empty method or target, or an unrecognised version is `MalformedStartLine`. -/
def parseRequestLine (line : List Char) : Except HTTPError StartLine :=
  match splitOn1 ' ' line with
  | Option.none => .error .malformedStartLine
  | some (m, rest) =>
    match splitOn1 ' ' rest with
    | Option.none => .error .malformedStartLine
    | some (t, v) =>
      if m.isEmpty || t.isEmpty then .error .malformedStartLine
      else if versionOk (String.mk v) then
        .ok (.request (String.mk m) (String.mk t) (String.mk v))
      else .error .malformedStartLine

/-- Modelled from the spec §4.2: a status line splits into version, a
three-digit status code and the remainder as reason phrase (possibly
empty); otherwise `MalformedStartLine`. -/
def parseStatusLine (line : List Char) : Except HTTPError StartLine :=
  match splitOn1 ' ' line with
  | Option.none => .error .malformedStartLine
  | some (v, rest) =>
    match splitOn1 ' ' rest with
    | Option.none => .error .malformedStartLine
    | some (code, reason) =>
      if versionOk (String.mk v) ∧ code.length = 3 ∧ code.all Char.isDigit then
        .ok (.status (String.mk v) (decVal code) (String.mk reason))
      else .error .malformedStartLine

/-- Start-line parsing, dispatching on the message direction. -/
def parseStartLine (isReq : Bool) (line : List Char) : Except HTTPError StartLine :=
  if isReq then parseRequestLine line else parseStatusLine line

/-- Serialised content of a start line, without the terminating CR LF. -/
def startLineContent : StartLine → List Char
  | .request m t v => m.data ++ ' ' :: (t.data ++ ' ' :: v.data)
  | .status v c r => v.data ++ ' ' :: (toDec c ++ ' ' :: r.data)

/-- Modelled from the spec §4.2: serialisation of a start line. -/
def serializeStartLine (sl : StartLine) : List Char := startLineContent sl ++ crlf

/-- Modelled from the spec §2: the decoded message assembled by the parser
from start line, header map and body bytes. -/
structure Message where
  startLine : StartLine
  headers : HTTPHeader
  body : Option (List Char)
deriving Repr, DecidableEq

/-! ### Header-line parsing -/

/-- Whether a line begins with whitespace (obsolete folding, rejected). -/
def startsWithWS : List Char → Bool
  | [] => false
  | c :: _ => isWS c

/-- Modelled from the spec §4.1/§4.4: parses one header line — rejects a
leading-whitespace line, a missing colon, and a name that is empty or
contains a non-token character; trims optional whitespace around the value. -/
def parseHeaderLine (line : List Char) : Except HTTPError (String × String) :=
  if startsWithWS line then .error .malformedHeader
  else
    match splitOn1 ':' line with
    | Option.none => .error .malformedHeader
    | some (n, rest) =>
      if n.isEmpty || !n.all isTokenChar then .error .malformedHeader
      else .ok (String.mk n, String.mk (trimOWS rest))

/-- Serialised form of one header entry: `name: value` plus CR LF. -/
def headerLineContent (p : String × String) : List Char :=
  p.1.data ++ ':' :: ' ' :: p.2.data

/-- Modelled from the spec §4.5: headers are written in stored order, one
`name: value` line each, never reordered or deduplicated. -/
def serializeHeaders (h : HTTPHeader) : List Char :=
  (h.entries.map (fun p => headerLineContent p ++ crlf)).flatten

/-! ### Chunked bodies -/

/-- Outcome of one incremental decoding attempt: finished with a value and
leftover bytes, more input needed, or a hard error. -/
inductive IncStep (α : Type) where
  | done (val : α) (rest : List Char)
  | needMore
  | bad (e : HTTPError)
deriving Repr

/-- Modelled from the spec §4.3: after the zero-size chunk, an optional
trailer header block (same grammar as headers) runs until a bare CR LF. -/
def skipTrailers : Nat → List Char → IncStep Unit
  | 0, _ => .needMore
  | fuel + 1, buf =>
    match splitCRLF buf with
    | Option.none => .needMore
    | some (line, rest) =>
      if line.isEmpty then .done () rest
      else
        match parseHeaderLine line with
        | .error e => .bad e
        | .ok _ => skipTrailers fuel rest

/-- Modelled from the spec §4.3: chunked decoding — a hex size line (any
extension after `;` stripped), that many body bytes, a CR LF, repeated
until a zero size, then trailers; malformed hex or a missing CR LF is
`MalformedChunk`, and insufficient buffered input asks for more. -/
def decodeChunkedInc : Nat → List Char → List Char → IncStep (List Char)
  | 0, _, _ => .needMore
  | fuel + 1, buf, acc =>
    match splitCRLF buf with
    | Option.none => .needMore
    | some (sizeLine, rest) =>
      let sizeStr := sizeLine.takeWhile (fun c => c != ';')
      if sizeStr.isEmpty || !sizeStr.all isHexDig then .bad .malformedChunk
      else
        let n := hexVal sizeStr
        if n = 0 then
          match skipTrailers (rest.length + 1) rest with
          | .needMore => .needMore
          | .bad e => .bad e
          | .done _ rest2 => .done acc rest2
        else
          if rest.length < n + 2 then .needMore
          else
            if (rest.drop n).take 2 = crlf then
              decodeChunkedInc fuel ((rest.drop n).drop 2) (acc ++ rest.take n)
            else .bad .malformedChunk

/-- Modelled from the spec §4.3: chunked encoding of a sequence of body
fragments — one chunk per fragment, empty fragments skipped, then the
zero-size terminator and the final CR LF (no trailers emitted). -/
def encodeChunkedBody (frags : List (List Char)) : List Char :=
  (frags.map (fun b => if b.isEmpty then [] else toHex b.length ++ crlf ++ b ++ crlf)).flatten
    ++ '0' :: (crlf ++ crlf)

/-! ### The incremental message parser (state machine) -/

/-- Modelled from the spec §4.4: the parser's states. Each awaiting state
retains the bytes buffered so far; `failed` is terminal. -/
inductive ParserState where
  | awaitingStartLine (isReq : Bool) (buf : List Char)
  | awaitingHeaders (isReq : Bool) (sl : StartLine) (hdrs : HTTPHeader) (buf : List Char)
  | awaitingBody (sl : StartLine) (hdrs : HTTPHeader) (framing : BodyFraming) (buf : List Char)
  | complete (m : Message)
  | failed (e : HTTPError)
deriving Repr

/-- Modelled from the spec §4.4: body consumption per framing — `none`
completes at once, `Fixed n` completes when `n` bytes have accumulated,
`Chunked` completes at the terminator, `UntilClose` waits for end-of-input. -/
def processBody (sl : StartLine) (hdrs : HTTPHeader) (f : BodyFraming)
    (buf : List Char) : ParserState :=
  match f with
  | .none => .complete ⟨sl, hdrs, Option.none⟩
  | .fixed n =>
    if n ≤ buf.length then .complete ⟨sl, hdrs, some (buf.take n)⟩
    else .awaitingBody sl hdrs (.fixed n) buf
  | .chunked =>
    match decodeChunkedInc (buf.length + 1) buf [] with
    | .done b _ => .complete ⟨sl, hdrs, some b⟩
    | .needMore => .awaitingBody sl hdrs .chunked buf
    | .bad e => .failed e
  | .untilClose => .awaitingBody sl hdrs .untilClose buf

/-- Modelled from the spec §4.4: consumes buffered header lines until the
bare CR LF, inserting each parsed header, then classifies the framing and
hands over to body consumption; a malformed line or classification error
moves to `failed`. -/
def processHeaders : Nat → Bool → StartLine → HTTPHeader → List Char → ParserState
  | 0, isReq, sl, hdrs, buf => .awaitingHeaders isReq sl hdrs buf
  | fuel + 1, isReq, sl, hdrs, buf =>
    match splitCRLF buf with
    | Option.none => .awaitingHeaders isReq sl hdrs buf
    | some (line, rest) =>
      if line.isEmpty then
        match classify isReq hdrs with
        | .error e => .failed e
        | .ok f => processBody sl hdrs f rest
      else
        match parseHeaderLine line with
        | .error e => .failed e
        | .ok nv => processHeaders fuel isReq sl (hdrs.insert nv.1 nv.2) rest

/-- Modelled from the spec §4.4: feeding a chunk of bytes to the parser.
`failed` and `complete` accept nothing further; awaiting states append the
bytes to their buffer and advance as far as the buffer allows. -/
def feed (st : ParserState) (bs : List Char) : ParserState :=
  match st with
  | .failed e => .failed e
  | .complete m => .complete m
  | .awaitingStartLine isReq buf =>
    let all := buf ++ bs
    match splitCRLF all with
    | Option.none => .awaitingStartLine isReq all
    | some (line, rest) =>
      match parseStartLine isReq line with
      | .error e => .failed e
      | .ok sl => processHeaders (rest.length + 1) isReq sl ⟨[]⟩ rest
  | .awaitingHeaders isReq sl hdrs buf =>
    processHeaders ((buf ++ bs).length + 1) isReq sl hdrs (buf ++ bs)
  | .awaitingBody sl hdrs f buf => processBody sl hdrs f (buf ++ bs)

/-- Modelled from the spec §4.4: the caller's explicit end-of-input signal.
`UntilClose` completes with the accumulated body; any other unfinished
state fails (`UnexpectedEof` for a short body, the malformed-line errors
for an unterminated head section). -/
def endOfInput (st : ParserState) : ParserState :=
  match st with
  | .failed e => .failed e
  | .complete m => .complete m
  | .awaitingStartLine _ _ => .failed .malformedStartLine
  | .awaitingHeaders _ _ _ _ => .failed .malformedHeader
  | .awaitingBody sl hdrs f buf =>
    match f with
    | .untilClose => .complete ⟨sl, hdrs, some buf⟩
    | _ => .failed .unexpectedEof

/-- Modelled from the spec §4.4: querying the parser — a completed message,
the terminal error, or "need more input" (`none`). -/
def query (st : ParserState) : Except HTTPError (Option Message) :=
  match st with
  | .complete m => .ok (some m)
  | .failed e => .error e
  | _ => .ok Option.none

/-- The start line recorded in a parser state, once one has been parsed. -/
def stateSL : ParserState → Option StartLine
  | .awaitingHeaders _ sl _ _ => some sl
  | .awaitingBody sl _ _ _ => some sl
  | .complete m => some m.startLine
  | _ => Option.none

/-- One-shot parse of a whole wire stream: feed everything, then signal
end-of-input. -/
def parse (isReq : Bool) (input : List Char) : Except HTTPError Message :=
  match endOfInput (feed (.awaitingStartLine isReq []) input) with
  | .complete m => .ok m
  | .failed e => .error e
  | _ => .error .unexpectedEof

/-! ### The serializer -/

/-- Modelled from the spec §4.5: body serialisation per framing; for
`Fixed` the declared length must match the body or it is `LengthMismatch`. -/
def serializeBody (f : BodyFraming) (body : Option (List Char)) :
    Except HTTPError (List Char) :=
  match f with
  | .none => .ok []
  | .fixed n =>
    let b := body.getD []
    if b.length = n then .ok b else .error .lengthMismatch
  | .chunked => .ok (encodeChunkedBody [body.getD []])
  | .untilClose => .ok (body.getD [])

/-- Modelled from the spec §4.5: renders a message — start line, headers in
stored order, blank line, then the body under the framing derived from the
headers. -/
def serialize (m : Message) : Except HTTPError (List Char) :=
  match classify (isRequestSL m.startLine) m.headers with
  | .error e => .error e
  | .ok f =>
    match serializeBody f m.body with
    | .error e => .error e
    | .ok b => .ok (serializeStartLine m.startLine ++ serializeHeaders m.headers ++ crlf ++ b)

/-! ### Well-formedness (hypotheses of the round-trip property) -/

/-- A character that cannot appear in a start-line field: space or CR LF. -/
def noDelim (c : Char) : Bool := decide (c ≠ ' ' ∧ c ≠ '\r' ∧ c ≠ '\n')

/-- A character that is not CR or LF. -/
def noCRLF (c : Char) : Bool := decide (c ≠ '\r' ∧ c ≠ '\n')

/-- Well-formedness of a start line for serialisation: non-empty method and
target without spaces or CR LF, a recognised version, a three-digit status
code, and a CR-LF-free reason. -/
def wfStartLine : StartLine → Bool
  | .request m t v =>
    !m.data.isEmpty && !t.data.isEmpty && m.data.all noDelim && t.data.all noDelim &&
      decide (versionOk v)
  | .status v c r =>
    decide (versionOk v) && decide (100 ≤ c ∧ c ≤ 999) && r.data.all noCRLF

/-- Well-formedness of one header entry: a non-empty token name and a
CR-LF-free value already free of leading/trailing whitespace. -/
def wfHeaderEntry (p : String × String) : Bool :=
  !p.1.data.isEmpty && p.1.data.all isTokenChar && p.2.data.all noCRLF &&
    decide (trimOWS p.2.data = p.2.data)

/-- Well-formedness of a header map: every entry well-formed. -/
def wfHeaders (h : HTTPHeader) : Bool := h.entries.all wfHeaderEntry

/-- Consistency of the stored body with the derived framing. -/
def framingMatches : BodyFraming → Option (List Char) → Bool
  | .none, Option.none => true
  | .fixed n, some b => decide (b.length = n)
  | .chunked, some _ => true
  | .untilClose, some _ => true
  | _, _ => false

/-! ## Supporting lemmas -/

theorem digitChar_lt10 : ∀ m, m < 10 → (digitChar m).isDigit = true
    ∧ digitVal (digitChar m) = m ∧ digitChar m ≠ '\r' ∧ digitChar m ≠ '\n'
    ∧ digitChar m ≠ ' ' := by decide

theorem hexDigitChar_lt16 : ∀ m, m < 16 → isHexDig (hexDigitChar m) = true
    ∧ hexDigitVal (hexDigitChar m) = m ∧ hexDigitChar m ≠ '\r'
    ∧ hexDigitChar m ≠ '\n' ∧ hexDigitChar m ≠ ';' := by decide

theorem isTokenChar_spec (c : Char) (hc : isTokenChar c = true) :
    c ≠ '\r' ∧ c ≠ '\n' ∧ c ≠ ':' ∧ c ≠ ' ' ∧ c ≠ '\t' ∧ isWS c = false := by
  have h1 : c ≠ '\r' := by rintro rfl; exact absurd hc (by decide)
  have h2 : c ≠ '\n' := by rintro rfl; exact absurd hc (by decide)
  have h3 : c ≠ ':' := by rintro rfl; exact absurd hc (by decide)
  have h4 : c ≠ ' ' := by rintro rfl; exact absurd hc (by decide)
  have h5 : c ≠ '\t' := by rintro rfl; exact absurd hc (by decide)
  refine ⟨h1, h2, h3, h4, h5, ?_⟩
  simp [isWS, h4, h5]

theorem noDelim_spec (c : Char) (hc : noDelim c = true) :
    c ≠ ' ' ∧ c ≠ '\r' ∧ c ≠ '\n' := of_decide_eq_true hc

theorem noCRLF_spec (c : Char) (hc : noCRLF c = true) :
    c ≠ '\r' ∧ c ≠ '\n' := of_decide_eq_true hc

theorem versionOk_chars (v : String) (hv : versionOk v) :
    ∀ c ∈ v.data, c ≠ '\r' ∧ c ≠ '\n' ∧ c ≠ ' ' := by
  rcases hv with rfl | rfl <;> decide

theorem splitOn1_append (sep : Char) (pre rest : List Char)
    (h : ∀ c ∈ pre, c ≠ sep) :
    splitOn1 sep (pre ++ sep :: rest) = some (pre, rest) := by
  induction pre with
  | nil => simp [splitOn1]
  | cons a pre ih =>
    have ha : a ≠ sep := h a (List.mem_cons_self a pre)
    have hrest : ∀ c ∈ pre, c ≠ sep := fun c hc => h c (List.mem_cons_of_mem a hc)
    simp [splitOn1, ha, ih hrest]

theorem splitCRLF_append (pre rest : List Char) (h : ∀ c ∈ pre, c ≠ '\r') :
    splitCRLF (pre ++ '\r' :: '\n' :: rest) = some (pre, rest) := by
  induction pre with
  | nil => simp [splitCRLF]
  | cons a pre ih =>
    have ha : a ≠ '\r' := h a (List.mem_cons_self a pre)
    have hrest : ∀ c ∈ pre, c ≠ '\r' := fun c hc => h c (List.mem_cons_of_mem a hc)
    cases pre with
    | nil => simp [splitCRLF, ha]
    | cons b pre2 =>
      have hb : ¬(a = '\r' ∧ b = '\n') := fun hab => ha hab.1
      simp only [List.cons_append] at ih ⊢
      rw [splitCRLF, if_neg hb, ih hrest]
      rfl

theorem takeWhile_no_semi (l : List Char) (h : ∀ c ∈ l, c ≠ ';') :
    l.takeWhile (fun c => c != ';') = l := by
  induction l with
  | nil => rfl
  | cons a l ih =>
    have ha : (a != ';') = true := bne_iff_ne.mpr (h a (List.mem_cons_self a l))
    simp [List.takeWhile_cons, ha, ih (fun c hc => h c (List.mem_cons_of_mem a hc))]

theorem trimOWS_cons_space (l : List Char) : trimOWS (' ' :: l) = trimOWS l := by
  have hws : isWS ' ' = true := by decide
  simp [trimOWS, List.dropWhile_cons, hws]

theorem toDecFuel_1digit (fuel n : Nat) (hf : n < fuel) (h : n < 10) :
    toDecFuel fuel n = [digitChar n] := by
  cases fuel with
  | zero => omega
  | succ fuel => simp [toDecFuel, h]

theorem toDecFuel_3digit (fuel n : Nat) (hf : n < fuel) (h1 : 100 ≤ n) (h2 : n ≤ 999) :
    toDecFuel fuel n = [digitChar (n / 100), digitChar (n / 10 % 10), digitChar (n % 10)] := by
  cases fuel with
  | zero => omega
  | succ fuel =>
    rw [toDecFuel, if_neg (by omega)]
    cases fuel with
    | zero => omega
    | succ fuel =>
      rw [toDecFuel, if_neg (by omega)]
      rw [toDecFuel_1digit fuel (n / 10 / 10) (by omega) (by omega)]
      have : n / 10 / 10 = n / 100 := by omega
      simp [this]

theorem toDec_3digit (n : Nat) (h1 : 100 ≤ n) (h2 : n ≤ 999) :
    toDec n = [digitChar (n / 100), digitChar (n / 10 % 10), digitChar (n % 10)] :=
  toDecFuel_3digit (n + 1) n (Nat.lt_succ_self n) h1 h2

theorem toDec_3digit_spec (n : Nat) (h1 : 100 ≤ n) (h2 : n ≤ 999) :
    decVal (toDec n) = n ∧ (toDec n).length = 3 ∧ (toDec n).all Char.isDigit = true
    ∧ ∀ c ∈ toDec n, c ≠ '\r' ∧ c ≠ '\n' ∧ c ≠ ' ' := by
  have d1 := digitChar_lt10 (n / 100) (by omega)
  have d2 := digitChar_lt10 (n / 10 % 10) (by omega)
  have d3 := digitChar_lt10 (n % 10) (by omega)
  rw [toDec_3digit n h1 h2]
  refine ⟨?_, rfl, ?_, ?_⟩
  · simp [decVal, List.foldl, d1.2.1, d2.2.1, d3.2.1]
    omega
  · simp [List.all_cons, d1.1, d2.1, d3.1]
  · intro c hc
    rcases List.mem_cons.mp hc with rfl | hc
    · exact ⟨d1.2.2.1, d1.2.2.2.1, d1.2.2.2.2⟩
    rcases List.mem_cons.mp hc with rfl | hc
    · exact ⟨d2.2.2.1, d2.2.2.2.1, d2.2.2.2.2⟩
    rcases List.mem_cons.mp hc with rfl | hc
    · exact ⟨d3.2.2.1, d3.2.2.2.1, d3.2.2.2.2⟩
    · exact absurd hc (List.not_mem_nil c)

theorem hexVal_append_singleton (l : List Char) (c : Char) :
    hexVal (l ++ [c]) = 16 * hexVal l + hexDigitVal c := by
  simp [hexVal, List.foldl_append]
  omega

theorem toHexFuel_spec (fuel : Nat) : ∀ n, n < fuel →
    hexVal (toHexFuel fuel n) = n ∧ toHexFuel fuel n ≠ []
    ∧ ∀ c ∈ toHexFuel fuel n, isHexDig c = true ∧ c ≠ '\r' ∧ c ≠ '\n' ∧ c ≠ ';' := by
  induction fuel with
  | zero => intro n hn; omega
  | succ fuel ih =>
    intro n hn
    by_cases h16 : n < 16
    · rw [toHexFuel, if_pos h16]
      have hd := hexDigitChar_lt16 n h16
      refine ⟨?_, by simp, ?_⟩
      · simp [hexVal, List.foldl, hd.2.1]
      · intro c hc
        rcases List.mem_cons.mp hc with rfl | hc
        · exact ⟨hd.1, hd.2.2.1, hd.2.2.2.1, hd.2.2.2.2⟩
        · exact absurd hc (List.not_mem_nil c)
    · rw [toHexFuel, if_neg h16]
      have hdiv : n / 16 < n := Nat.div_lt_self (by omega) (by omega)
      have hrec := ih (n / 16) (by omega)
      have hd := hexDigitChar_lt16 (n % 16) (by omega)
      refine ⟨?_, by simp, ?_⟩
      · rw [hexVal_append_singleton, hrec.1, hd.2.1]
        omega
      · intro c hc
        rcases List.mem_append.mp hc with hc | hc
        · exact hrec.2.2 c hc
        rcases List.mem_cons.mp hc with rfl | hc
        · exact ⟨hd.1, hd.2.2.1, hd.2.2.2.1, hd.2.2.2.2⟩
        · exact absurd hc (List.not_mem_nil c)

theorem toHex_spec (n : Nat) :
    hexVal (toHex n) = n ∧ toHex n ≠ []
    ∧ ∀ c ∈ toHex n, isHexDig c = true ∧ c ≠ '\r' ∧ c ≠ '\n' ∧ c ≠ ';' :=
  toHexFuel_spec (n + 1) n (Nat.lt_succ_self n)

theorem wfStartLine_request (m t v : String)
    (h : wfStartLine (.request m t v) = true) :
    m.data ≠ [] ∧ t.data ≠ [] ∧ (∀ c ∈ m.data, noDelim c = true)
    ∧ (∀ c ∈ t.data, noDelim c = true) ∧ versionOk v := by
  simp only [wfStartLine, Bool.and_eq_true, List.all_eq_true,
    Bool.not_eq_true', List.isEmpty_eq_false, decide_eq_true_eq] at h
  exact ⟨h.1.1.1.1, h.1.1.1.2, h.1.1.2, h.1.2, h.2⟩

theorem wfStartLine_status (v : String) (code : Nat) (r : String)
    (h : wfStartLine (.status v code r) = true) :
    versionOk v ∧ 100 ≤ code ∧ code ≤ 999 ∧ ∀ c ∈ r.data, noCRLF c = true := by
  simp only [wfStartLine, Bool.and_eq_true, List.all_eq_true, decide_eq_true_eq] at h
  exact ⟨h.1.1, h.1.2.1, h.1.2.2, h.2⟩

theorem startLineContent_no_cr (sl : StartLine) (h : wfStartLine sl = true) :
    ∀ c ∈ startLineContent sl, c ≠ '\r' := by
  cases sl with
  | request m t v =>
    obtain ⟨-, -, hm, ht, hv⟩ := wfStartLine_request m t v h
    intro c hc
    simp only [startLineContent, List.mem_append, List.mem_cons] at hc
    rcases hc with hc | rfl | hc | rfl | hc
    · exact (noDelim_spec c (hm c hc)).2.1
    · decide
    · exact (noDelim_spec c (ht c hc)).2.1
    · decide
    · exact (versionOk_chars v hv c hc).1
  | status v code r =>
    obtain ⟨hv, h1, h2, hr⟩ := wfStartLine_status v code r h
    intro c hc
    simp only [startLineContent, List.mem_append, List.mem_cons] at hc
    rcases hc with hc | rfl | hc | rfl | hc
    · exact (versionOk_chars v hv c hc).1
    · decide
    · exact ((toDec_3digit_spec code h1 h2).2.2.2 c hc).1
    · decide
    · exact (noCRLF_spec c (hr c hc)).1

theorem parseStartLine_round (sl : StartLine) (h : wfStartLine sl = true) :
    parseStartLine (isRequestSL sl) (startLineContent sl) = .ok sl := by
  cases sl with
  | request m t v =>
    obtain ⟨hm, ht, hmc, htc, hv⟩ := wfStartLine_request m t v h
    show parseRequestLine (m.data ++ ' ' :: (t.data ++ ' ' :: v.data)) = _
    unfold parseRequestLine
    rw [splitOn1_append ' ' m.data _ (fun c hc => (noDelim_spec c (hmc c hc)).1)]
    simp only []
    rw [splitOn1_append ' ' t.data _ (fun c hc => (noDelim_spec c (htc c hc)).1)]
    simp only []
    have hem : m.data.isEmpty = false := List.isEmpty_eq_false.mpr hm
    have het : t.data.isEmpty = false := List.isEmpty_eq_false.mpr ht
    rw [if_neg (by simp [hem, het]), if_pos hv]
  | status v code r =>
    obtain ⟨hv, h1, h2, hr⟩ := wfStartLine_status v code r h
    have htd := toDec_3digit_spec code h1 h2
    show parseStatusLine (v.data ++ ' ' :: (toDec code ++ ' ' :: r.data)) = _
    unfold parseStatusLine
    rw [splitOn1_append ' ' v.data _ (fun c hc => (versionOk_chars v hv c hc).2.2)]
    simp only []
    rw [splitOn1_append ' ' (toDec code) _ (fun c hc => (htd.2.2.2 c hc).2.2)]
    simp only []
    rw [if_pos ⟨hv, htd.2.1, htd.2.2.1⟩, htd.1]

theorem wfHeaderEntry_spec (p : String × String) (h : wfHeaderEntry p = true) :
    p.1.data ≠ [] ∧ (∀ c ∈ p.1.data, isTokenChar c = true)
    ∧ (∀ c ∈ p.2.data, noCRLF c = true) ∧ trimOWS p.2.data = p.2.data := by
  simp only [wfHeaderEntry, Bool.and_eq_true, List.all_eq_true,
    Bool.not_eq_true', List.isEmpty_eq_false, decide_eq_true_eq] at h
  exact ⟨h.1.1.1, h.1.1.2, h.1.2, h.2⟩

theorem headerLineContent_no_cr (p : String × String)
    (h : wfHeaderEntry p = true) : ∀ c ∈ headerLineContent p, c ≠ '\r' := by
  obtain ⟨-, hn, hv, -⟩ := wfHeaderEntry_spec p h
  intro c hc
  simp only [headerLineContent, List.mem_append, List.mem_cons] at hc
  rcases hc with hc | rfl | rfl | hc
  · exact (isTokenChar_spec c (hn c hc)).1
  · decide
  · decide
  · exact (noCRLF_spec c (hv c hc)).1

theorem parseHeaderLine_round (p : String × String) (h : wfHeaderEntry p = true) :
    parseHeaderLine (headerLineContent p) = .ok p := by
  obtain ⟨hne, hn, hv, htrim⟩ := wfHeaderEntry_spec p h
  unfold parseHeaderLine headerLineContent
  have hsw : startsWithWS (p.1.data ++ ':' :: ' ' :: p.2.data) = false := by
    rcases hd : p.1.data with _ | ⟨c0, cs⟩
    · exact absurd hd hne
    · have hc0 : isTokenChar c0 = true := hn c0 (hd ▸ List.mem_cons_self c0 cs)
      simpa [startsWithWS] using (isTokenChar_spec c0 hc0).2.2.2.2.2
  rw [if_neg (by simp [hsw])]
  rw [splitOn1_append ':' p.1.data _ (fun c hc => (isTokenChar_spec c (hn c hc)).2.2.1)]
  simp only []
  have hem : p.1.data.isEmpty = false := List.isEmpty_eq_false.mpr hne
  have hall : p.1.data.all isTokenChar = true := List.all_eq_true.mpr hn
  rw [if_neg (by simp [hem, hall])]
  rw [trimOWS_cons_space, htrim]

theorem processHeaders_round (es : List (String × String)) :
    ∀ (fuel : Nat) (isReq : Bool) (sl : StartLine) (acc : List (String × String))
      (rest : List Char),
    es.all wfHeaderEntry = true →
    ((es.map (fun p => headerLineContent p ++ crlf)).flatten ++ crlf ++ rest).length < fuel →
    processHeaders fuel isReq sl ⟨acc⟩
        ((es.map (fun p => headerLineContent p ++ crlf)).flatten ++ crlf ++ rest)
      = match classify isReq ⟨acc ++ es⟩ with
        | .error e => .failed e
        | .ok f => processBody sl ⟨acc ++ es⟩ f rest := by
  induction es with
  | nil =>
    intro fuel isReq sl acc rest _ hfuel
    cases fuel with
    | zero => simp at hfuel
    | succ fuel =>
      have hbuf : (([] : List (String × String)).map
            (fun p => headerLineContent p ++ crlf)).flatten ++ crlf ++ rest
          = '\r' :: '\n' :: rest := by
        simp [crlf]
      rw [hbuf, processHeaders]
      have hsp : splitCRLF ('\r' :: '\n' :: rest) = some ([], rest) := by
        rw [splitCRLF, if_pos ⟨rfl, rfl⟩]
      rw [hsp]
      simp only [List.isEmpty_nil, if_true, List.append_nil]
  | cons p es ih =>
    intro fuel isReq sl acc rest hwf hfuel
    have hwfp : wfHeaderEntry p = true := (List.all_eq_true.mp hwf p (List.mem_cons_self p es))
    have hwfes : es.all wfHeaderEntry = true :=
      List.all_eq_true.mpr (fun x hx => List.all_eq_true.mp hwf x (List.mem_cons_of_mem p hx))
    cases fuel with
    | zero => simp at hfuel
    | succ fuel =>
      have hbuf : ((p :: es).map (fun q => headerLineContent q ++ crlf)).flatten ++ crlf ++ rest
          = headerLineContent p
            ++ '\r' :: '\n' :: ((es.map (fun q => headerLineContent q ++ crlf)).flatten ++ crlf ++ rest) := by
        simp [crlf, List.append_assoc]
      rw [hbuf, processHeaders]
      rw [splitCRLF_append _ _ (headerLineContent_no_cr p hwfp)]
      simp only []
      have hne : (headerLineContent p).isEmpty = false := by
        obtain ⟨hne1, -, -, -⟩ := wfHeaderEntry_spec p hwfp
        rcases hd : p.1.data with _ | ⟨c0, cs⟩
        · exact absurd hd hne1
        · simp [headerLineContent, hd]
      rw [if_neg (by simp [hne])]
      rw [parseHeaderLine_round p hwfp]
      simp only []
      have hlen : ((es.map (fun q => headerLineContent q ++ crlf)).flatten ++ crlf ++ rest).length < fuel := by
        have : (headerLineContent p
            ++ '\r' :: '\n' :: ((es.map (fun q => headerLineContent q ++ crlf)).flatten ++ crlf ++ rest)).length
            < fuel + 1 := hbuf ▸ hfuel
        simp [List.length_append] at this ⊢
        omega
      have hrec := ih fuel isReq sl (acc ++ [p]) rest hwfes hlen
      have hins : (HTTPHeader.insert ⟨acc⟩ p.1 p.2) = (⟨acc ++ [p]⟩ : HTTPHeader) := rfl
      rw [hins, hrec]
      simp [List.append_assoc]

theorem decodeChunkedInc_term (fuel : Nat) (acc : List Char) (hf : 0 < fuel) :
    decodeChunkedInc fuel ('0' :: ('\r' :: '\n' :: '\r' :: '\n' :: [])) acc
      = .done acc [] := by
  cases fuel with
  | zero => omega
  | succ fuel => rfl

theorem decodeChunkedInc_single (b : List Char) (hb : b ≠ []) (fuel : Nat)
    (hf : 1 < fuel) :
    decodeChunkedInc fuel
        (toHex b.length ++ crlf ++ b ++ crlf ++ ('0' :: (crlf ++ crlf))) []
      = .done b [] := by
  obtain ⟨hval, hnn, hchars⟩ := toHex_spec b.length
  cases fuel with
  | zero => omega
  | succ fuel =>
    have hshape : toHex b.length ++ crlf ++ b ++ crlf ++ ('0' :: (crlf ++ crlf))
        = toHex b.length ++ '\r' :: '\n' :: (b ++ crlf ++ ('0' :: (crlf ++ crlf))) := by
      simp [crlf, List.append_assoc]
    rw [hshape, decodeChunkedInc]
    rw [splitCRLF_append _ _ (fun c hc => (hchars c hc).2.1)]
    simp only []
    rw [takeWhile_no_semi _ (fun c hc => (hchars c hc).2.2.2)]
    have hemp : (toHex b.length).isEmpty = false := List.isEmpty_eq_false.mpr hnn
    have hall : (toHex b.length).all isHexDig = true :=
      List.all_eq_true.mpr (fun c hc => (hchars c hc).1)
    rw [if_neg (by simp [hemp, hall])]
    rw [hval]
    have hlb : 0 < b.length := List.length_pos.mpr hb
    rw [if_neg (by omega)]
    have hrlen : (b ++ crlf ++ ('0' :: (crlf ++ crlf))).length = b.length + 7 := by
      simp [crlf]
    rw [if_neg (by rw [hrlen]; omega)]
    have hdrop : (b ++ crlf ++ ('0' :: (crlf ++ crlf))).drop b.length
        = crlf ++ ('0' :: (crlf ++ crlf)) := by
      rw [List.append_assoc]
      exact List.drop_left b _
    have htake : (b ++ crlf ++ ('0' :: (crlf ++ crlf))).take b.length = b := by
      rw [List.append_assoc]
      exact List.take_left b _
    rw [hdrop, htake]
    rw [if_pos (by rfl)]
    have hdrop2 : (crlf ++ ('0' :: (crlf ++ crlf))).drop 2 = '0' :: (crlf ++ crlf) := rfl
    rw [hdrop2]
    have : ('0' : Char) :: (crlf ++ crlf) = '0' :: ('\r' :: '\n' :: '\r' :: '\n' :: []) := rfl
    rw [this, List.nil_append]
    exact decodeChunkedInc_term fuel b (by omega)

theorem parseRequestLine_versionOk (line : List Char) (sl : StartLine)
    (h : parseRequestLine line = .ok sl) : versionOk (versionOf sl) := by
  unfold parseRequestLine at h
  split at h
  · simp at h
  · split at h
    · simp at h
    · split at h
      · simp at h
      · split at h
        · next hv =>
          cases h
          exact hv
        · simp at h

theorem parseStatusLine_versionOk (line : List Char) (sl : StartLine)
    (h : parseStatusLine line = .ok sl) : versionOk (versionOf sl) := by
  unfold parseStatusLine at h
  split at h
  · simp at h
  · split at h
    · simp at h
    · split at h
      · next hv =>
        cases h
        exact hv.1
      · simp at h

theorem parseStartLine_versionOk (isReq : Bool) (line : List Char) (sl : StartLine)
    (h : parseStartLine isReq line = .ok sl) : versionOk (versionOf sl) := by
  cases isReq with
  | true => exact parseRequestLine_versionOk line sl h
  | false => exact parseStatusLine_versionOk line sl h

theorem processBody_sl (sl : StartLine) (hdrs : HTTPHeader) (f : BodyFraming)
    (buf : List Char) :
    stateSL (processBody sl hdrs f buf) = some sl
    ∨ ∃ e, processBody sl hdrs f buf = .failed e := by
  cases f with
  | none => left; rfl
  | fixed n =>
    by_cases h : n ≤ buf.length
    · left; simp [processBody, stateSL, h]
    · left; simp [processBody, stateSL, h]
  | chunked =>
    cases hdec : decodeChunkedInc (buf.length + 1) buf [] with
    | done b rest => left; simp [processBody, stateSL, hdec]
    | needMore => left; simp [processBody, stateSL, hdec]
    | bad e => right; exact ⟨e, by simp [processBody, hdec]⟩
  | untilClose => left; rfl

theorem processHeaders_sl (fuel : Nat) :
    ∀ (isReq : Bool) (sl : StartLine) (hdrs : HTTPHeader) (buf : List Char),
    stateSL (processHeaders fuel isReq sl hdrs buf) = some sl
    ∨ ∃ e, processHeaders fuel isReq sl hdrs buf = .failed e := by
  induction fuel with
  | zero => intro isReq sl hdrs buf; left; rfl
  | succ fuel ih =>
    intro isReq sl hdrs buf
    simp only [processHeaders]
    cases hsp : splitCRLF buf with
    | none => left; rfl
    | some p =>
      obtain ⟨line, rest⟩ := p
      simp only []
      by_cases hline : line.isEmpty = true
      · rw [if_pos hline]
        cases hcl : classify isReq hdrs with
        | error e => right; exact ⟨e, rfl⟩
        | ok f => exact processBody_sl sl hdrs f rest
      · rw [if_neg hline]
        cases hph : parseHeaderLine line with
        | error e => right; exact ⟨e, rfl⟩
        | ok nv => exact ih isReq sl (hdrs.insert nv.1 nv.2) rest

theorem endOfInput_complete_sl (st : ParserState) (m : Message)
    (h : endOfInput st = .complete m) : stateSL st = some m.startLine := by
  cases st with
  | complete m2 =>
    injection h with h
    rw [h]
    rfl
  | failed e => simp [endOfInput] at h
  | awaitingStartLine a b => simp [endOfInput] at h
  | awaitingHeaders a b c d => simp [endOfInput] at h
  | awaitingBody sl hdrs f buf =>
    cases f with
    | untilClose =>
      simp only [endOfInput] at h
      injection h with h
      rw [← h]
      rfl
    | none => simp [endOfInput] at h
    | fixed n => simp [endOfInput] at h
    | chunked => simp [endOfInput] at h

/-! ## Theorems -/

/-- C1: The Message type consists of exactly three components — a version
string, a header map, and an optional byte-sequence body; every message is
determined by these three components (no other message-level state), and
each projection recovers the component it was built from. -/
theorem httpMessage_three_components (m : HTTPMessage) (v : String)
    (h : HTTPHeader) (b : Option (List Char)) :
    m = HTTPMessage.mk m.http_version m.headers m.body
    ∧ (HTTPMessage.mk v h b).http_version = v
    ∧ (HTTPMessage.mk v h b).headers = h
    ∧ (HTTPMessage.mk v h b).body = b :=
  ⟨rfl, rfl, rfl, rfl⟩

/-- C10: `HTTPMessage.new` returns a message whose version is the given
version, whose headers are the given headers, and whose body is `none`. -/
theorem httpMessage_new_spec (v : String) (h : HTTPHeader) :
    (HTTPMessage.new v h).http_version = v
    ∧ (HTTPMessage.new v h).headers = h
    ∧ (HTTPMessage.new v h).body = Option.none :=
  ⟨rfl, rfl, rfl⟩

/-- C2: Cloning shares header storage behind a handle; a copy-on-write
mutation of the clone (header insertion, or body replacement) is never
observable through the original's handle or fields, and symmetrically a
mutation of the original is never observable in the clone — while the
mutation is visible through the mutated side's own handle. -/
theorem clone_mutation_frame (H : HeaderHeap) (m : SharedMessage)
    (n v : String) (b : Option (List Char))
    (hvalid : m.headers.idx < H.stores.length) :
    (cowInsert H (cloneMessage m) n v).1.readH m.headers = H.readH m.headers
    ∧ (cowInsert H (cloneMessage m) n v).1.readH
        (cowInsert H (cloneMessage m) n v).2.headers = H.readH m.headers ++ [(n, v)]
    ∧ (cowInsert H m n v).1.readH (cloneMessage m).headers = H.readH m.headers
    ∧ (setBody (cloneMessage m) b).body = b
    ∧ (cloneMessage m).http_version = m.http_version
    ∧ (cloneMessage m).body = m.body := by
  refine ⟨?_, ?_, ?_, rfl, rfl, rfl⟩
  · simp only [cowInsert, cloneMessage, cloneHandle, HeaderHeap.readH]
    exact List.getD_append _ _ _ _ hvalid
  · simp only [cowInsert, cloneMessage, cloneHandle, HeaderHeap.readH]
    rw [List.getD_append_right _ _ _ _ (Nat.le_refl _), Nat.sub_self]
    rfl
  · simp only [cowInsert, cloneMessage, cloneHandle, HeaderHeap.readH]
    exact List.getD_append _ _ _ _ hvalid

/-- Witness for C2 at a concrete heap, message and mutation. -/
theorem clone_mutation_frame_witness :
    (HeaderHandle.mk 0).idx < (HeaderHeap.mk [[("Host", "a")]]).stores.length
    ∧ ((cowInsert (HeaderHeap.mk [[("Host", "a")]])
          (cloneMessage ⟨"HTTP/1.1", ⟨0⟩, Option.none⟩) "X" "1").1.readH
            (SharedMessage.mk "HTTP/1.1" ⟨0⟩ Option.none).headers =
          (HeaderHeap.mk [[("Host", "a")]]).readH
            (SharedMessage.mk "HTTP/1.1" ⟨0⟩ Option.none).headers
        ∧ (cowInsert (HeaderHeap.mk [[("Host", "a")]])
            (cloneMessage ⟨"HTTP/1.1", ⟨0⟩, Option.none⟩) "X" "1").1.readH
              (cowInsert (HeaderHeap.mk [[("Host", "a")]])
                (cloneMessage ⟨"HTTP/1.1", ⟨0⟩, Option.none⟩) "X" "1").2.headers =
            (HeaderHeap.mk [[("Host", "a")]]).readH
              (SharedMessage.mk "HTTP/1.1" ⟨0⟩ Option.none).headers ++ [("X", "1")]
        ∧ (cowInsert (HeaderHeap.mk [[("Host", "a")]])
            (SharedMessage.mk "HTTP/1.1" ⟨0⟩ Option.none) "X" "1").1.readH
              (cloneMessage ⟨"HTTP/1.1", ⟨0⟩, Option.none⟩).headers =
            (HeaderHeap.mk [[("Host", "a")]]).readH
              (SharedMessage.mk "HTTP/1.1" ⟨0⟩ Option.none).headers
        ∧ (setBody (cloneMessage ⟨"HTTP/1.1", ⟨0⟩, Option.none⟩) (some ['b'])).body = some ['b']
        ∧ (cloneMessage ⟨"HTTP/1.1", ⟨0⟩, Option.none⟩).http_version =
            (SharedMessage.mk "HTTP/1.1" ⟨0⟩ Option.none).http_version
        ∧ (cloneMessage ⟨"HTTP/1.1", ⟨0⟩, Option.none⟩).body =
            (SharedMessage.mk "HTTP/1.1" ⟨0⟩ Option.none).body) :=
  ⟨by decide,
    clone_mutation_frame (HeaderHeap.mk [[("Host", "a")]])
      (SharedMessage.mk "HTTP/1.1" ⟨0⟩ Option.none) "X" "1" (some ['b']) (by decide)⟩

/-- C7: Header-name lookup is ASCII case-insensitive — after inserting
under a name, `get_first` under any two case variants of that name agrees,
and under a case variant of a freshly inserted name it finds the inserted
value. -/
theorem get_first_case_insensitive (h : HTTPHeader) (nm v n1 n2 : String)
    (h1 : lowerStr n1 = lowerStr nm) (h2 : lowerStr n2 = lowerStr nm) :
    (h.insert nm v).get_first n1 = (h.insert nm v).get_first n2
    ∧ ((HTTPHeader.mk []).insert nm v).get_first n1 = some v := by
  constructor
  · simp only [HTTPHeader.get_first, HTTPHeader.get_all, h1, h2]
  · simp [HTTPHeader.get_first, HTTPHeader.get_all, HTTPHeader.insert, h1]

/-- Witness for C7: lookups under `content-length` and `Content-Length`
agree after inserting under `Content-Length`. -/
theorem get_first_case_insensitive_witness :
    lowerStr "content-length" = lowerStr "Content-Length"
    ∧ lowerStr "Content-Length" = lowerStr "Content-Length"
    ∧ (((HTTPHeader.mk [("Host", "a")]).insert "Content-Length" "5").get_first "content-length" =
        ((HTTPHeader.mk [("Host", "a")]).insert "Content-Length" "5").get_first "Content-Length"
      ∧ ((HTTPHeader.mk []).insert "Content-Length" "5").get_first "content-length" = some "5") :=
  ⟨by decide, by decide,
    get_first_case_insensitive (HTTPHeader.mk [("Host", "a")]) "Content-Length" "5"
      "content-length" "Content-Length" (by decide) (by decide)⟩

/-- C4: Whenever the Transfer-Encoding codings end in `chunked`, the body
framer classifies the body as `Chunked` — regardless of any Content-Length
header — and does not raise an error. -/
theorem classify_chunked_precedence (isReq : Bool) (h : HTTPHeader)
    (hte : (teCodings h).getLast? = some "chunked") :
    classify isReq h = .ok .chunked := by
  unfold classify
  rw [if_pos hte]

/-- Witness for C4: a header map with both `Content-Length` and
`Transfer-Encoding: chunked` classifies as `Chunked`. -/
theorem classify_chunked_precedence_witness :
    (teCodings ⟨[("Content-Length", "5"), ("Transfer-Encoding", "chunked")]⟩).getLast?
        = some "chunked"
    ∧ classify true ⟨[("Content-Length", "5"), ("Transfer-Encoding", "chunked")]⟩
        = .ok .chunked :=
  ⟨by decide,
    classify_chunked_precedence true
      ⟨[("Content-Length", "5"), ("Transfer-Encoding", "chunked")]⟩ (by decide)⟩

/-- C5: Without chunked Transfer-Encoding, a Content-Length set containing
a non-numeric value or two differing values makes classification fail with
`InvalidContentLength` rather than picking one value. -/
theorem classify_conflicting_content_length (isReq : Bool) (h : HTTPHeader)
    (hnc : (teCodings h).getLast? ≠ some "chunked")
    (hbad : (∃ v, v ∈ h.get_all "Content-Length" ∧ clOk v = false)
      ∨ (∃ v w, v ∈ h.get_all "Content-Length" ∧ w ∈ h.get_all "Content-Length"
          ∧ decVal v.data ≠ decVal w.data)) :
    classify isReq h = .error .invalidContentLength := by
  unfold classify
  rw [if_neg hnc]
  split
  · next hcl =>
    rw [hcl] at hbad
    rcases hbad with ⟨v, hv, _⟩ | ⟨v, _, hv, _, _⟩ <;> exact absurd hv (List.not_mem_nil v)
  · next c rest hcl =>
    rw [hcl] at hbad
    by_cases hall : (c :: rest).all clOk = true
    · rw [if_pos hall]
      rw [if_neg]
      intro hsame
      have heq : ∀ x ∈ c :: rest, decVal x.data = decVal c.data := by
        intro x hx
        rcases List.mem_cons.mp hx with rfl | hx
        · rfl
        · have := List.all_eq_true.mp hsame x hx
          exact eq_of_beq this
      rcases hbad with ⟨v, hv, hvbad⟩ | ⟨v, w, hv, hw, hvw⟩
      · have hok := List.all_eq_true.mp hall v hv
        rw [hok] at hvbad
        exact Bool.noConfusion hvbad
      · exact hvw ((heq v hv).trans (heq w hw).symm)
    · rw [if_neg hall]

/-- Witness for C5: `Content-Length: 5` together with `Content-Length: 7`
is rejected with `InvalidContentLength`. -/
theorem classify_conflicting_content_length_witness :
    (teCodings ⟨[("Content-Length", "5"), ("Content-Length", "7")]⟩).getLast?
        ≠ some "chunked"
    ∧ ((∃ v, v ∈ HTTPHeader.get_all ⟨[("Content-Length", "5"), ("Content-Length", "7")]⟩
            "Content-Length" ∧ clOk v = false)
      ∨ (∃ v w, v ∈ HTTPHeader.get_all ⟨[("Content-Length", "5"), ("Content-Length", "7")]⟩
            "Content-Length"
          ∧ w ∈ HTTPHeader.get_all ⟨[("Content-Length", "5"), ("Content-Length", "7")]⟩
              "Content-Length"
          ∧ decVal v.data ≠ decVal w.data))
    ∧ classify true ⟨[("Content-Length", "5"), ("Content-Length", "7")]⟩
        = .error .invalidContentLength :=
  ⟨by decide,
    Or.inr ⟨"5", "7", by decide, by decide, by decide⟩,
    classify_conflicting_content_length true
      ⟨[("Content-Length", "5"), ("Content-Length", "7")]⟩ (by decide)
      (Or.inr ⟨"5", "7", by decide, by decide, by decide⟩)⟩

/-- C3: Round trip — for every message with a well-formed start line and
header map and a body consistent with the framing derived from its headers,
parsing the serialisation of the message yields the message back: same
start-line fields, same header entries in stored order, same body bytes. -/
theorem parse_serialize_roundtrip (m : Message) (f : BodyFraming)
    (hsl : wfStartLine m.startLine = true)
    (hh : wfHeaders m.headers = true)
    (hcl : classify (isRequestSL m.startLine) m.headers = .ok f)
    (hb : framingMatches f m.body = true) :
    (serialize m).bind (parse (isRequestSL m.startLine)) = .ok m := by
  obtain ⟨sl, hdrs, body⟩ := m
  obtain ⟨entries⟩ := hdrs
  dsimp only at hsl hh hcl hb ⊢
  have hes : entries.all wfHeaderEntry = true := hh
  have key : ∀ B : List Char, serializeBody f body = .ok B →
      (serialize ⟨sl, ⟨entries⟩, body⟩).bind (parse (isRequestSL sl))
        = match endOfInput (processBody sl ⟨entries⟩ f B) with
          | .complete mm => .ok mm
          | .failed e => .error e
          | _ => .error .unexpectedEof := by
    intro B hB
    have hser : serialize ⟨sl, ⟨entries⟩, body⟩
        = .ok (serializeStartLine sl ++ serializeHeaders ⟨entries⟩ ++ crlf ++ B) := by
      unfold serialize
      dsimp only
      rw [hcl]
      simp only []
      rw [hB]
    rw [hser]
    show parse (isRequestSL sl)
        (serializeStartLine sl ++ serializeHeaders ⟨entries⟩ ++ crlf ++ B) = _
    have hfeed : feed (.awaitingStartLine (isRequestSL sl) [])
        (serializeStartLine sl ++ serializeHeaders ⟨entries⟩ ++ crlf ++ B)
        = processBody sl ⟨entries⟩ f B := by
      have hshape : serializeStartLine sl ++ serializeHeaders ⟨entries⟩ ++ crlf ++ B
          = startLineContent sl ++ '\r' :: '\n' ::
              ((entries.map (fun p => headerLineContent p ++ crlf)).flatten ++ crlf ++ B) := by
        simp [serializeStartLine, serializeHeaders, crlf, List.append_assoc]
      rw [hshape]
      unfold feed
      simp only [List.nil_append]
      rw [splitCRLF_append _ _ (startLineContent_no_cr sl hsl)]
      simp only []
      rw [parseStartLine_round sl hsl]
      simp only []
      rw [processHeaders_round entries _ (isRequestSL sl) sl [] B hes (Nat.lt_succ_self _)]
      simp only [List.nil_append]
      rw [hcl]
    unfold parse
    rw [hfeed]
  cases f with
  | none =>
    cases body with
    | some b => simp [framingMatches] at hb
    | none =>
      have hB : serializeBody .none Option.none = .ok [] := rfl
      rw [key [] hB]
      rfl
  | fixed n =>
    cases body with
    | none => simp [framingMatches] at hb
    | some b =>
      have hlen : b.length = n := of_decide_eq_true hb
      have hB : serializeBody (.fixed n) (some b) = .ok b := by
        unfold serializeBody
        simp [hlen]
      rw [key b hB]
      have hpb : processBody sl ⟨entries⟩ (.fixed n) b
          = .complete ⟨sl, ⟨entries⟩, some (b.take n)⟩ := by
        unfold processBody
        simp only []
        rw [if_pos (by omega)]
      rw [hpb]
      rw [← hlen, List.take_length]
      rfl
  | chunked =>
    cases body with
    | none => simp [framingMatches] at hb
    | some b =>
      by_cases hbe : b = []
      · subst hbe
        have hB : serializeBody .chunked (some []) = .ok ('0' :: (crlf ++ crlf)) := by
          unfold serializeBody encodeChunkedBody
          simp
        rw [key _ hB]
        have hpb : processBody sl ⟨entries⟩ .chunked ('0' :: (crlf ++ crlf))
            = .complete ⟨sl, ⟨entries⟩, some []⟩ := by
          unfold processBody
          rw [show ('0' :: (crlf ++ crlf)).length + 1 = 6 from rfl]
          rw [show ('0' : Char) :: (crlf ++ crlf)
              = '0' :: ('\r' :: '\n' :: '\r' :: '\n' :: []) from rfl]
          rw [decodeChunkedInc_term 6 [] (by omega)]
        rw [hpb]
        rfl
      · have hB : serializeBody .chunked (some b)
            = .ok (toHex b.length ++ crlf ++ b ++ crlf ++ ('0' :: (crlf ++ crlf))) := by
          unfold serializeBody encodeChunkedBody
          simp [hbe, List.append_assoc]
        rw [key _ hB]
        have hpb : processBody sl ⟨entries⟩ .chunked
            (toHex b.length ++ crlf ++ b ++ crlf ++ ('0' :: (crlf ++ crlf)))
            = .complete ⟨sl, ⟨entries⟩, some b⟩ := by
          unfold processBody
          rw [decodeChunkedInc_single b hbe _ (by simp [crlf])]
        rw [hpb]
        rfl
  | untilClose =>
    cases body with
    | none => simp [framingMatches] at hb
    | some b =>
      have hB : serializeBody .untilClose (some b) = .ok b := rfl
      rw [key b hB]
      rfl

/-- Witness for C3: a concrete response with `Content-Length: 5` and body
`hello` serialises and parses back to itself. -/
theorem parse_serialize_roundtrip_witness :
    wfStartLine (Message.mk (.status "HTTP/1.1" 200 "OK")
        ⟨[("Content-Length", "5")]⟩ (some "hello".data)).startLine = true
    ∧ wfHeaders (Message.mk (.status "HTTP/1.1" 200 "OK")
        ⟨[("Content-Length", "5")]⟩ (some "hello".data)).headers = true
    ∧ classify (isRequestSL (Message.mk (.status "HTTP/1.1" 200 "OK")
        ⟨[("Content-Length", "5")]⟩ (some "hello".data)).startLine)
        (Message.mk (.status "HTTP/1.1" 200 "OK")
          ⟨[("Content-Length", "5")]⟩ (some "hello".data)).headers = .ok (.fixed 5)
    ∧ framingMatches (.fixed 5) (Message.mk (.status "HTTP/1.1" 200 "OK")
        ⟨[("Content-Length", "5")]⟩ (some "hello".data)).body = true
    ∧ (serialize (Message.mk (.status "HTTP/1.1" 200 "OK")
        ⟨[("Content-Length", "5")]⟩ (some "hello".data))).bind
          (parse (isRequestSL (Message.mk (.status "HTTP/1.1" 200 "OK")
            ⟨[("Content-Length", "5")]⟩ (some "hello".data)).startLine))
        = .ok (Message.mk (.status "HTTP/1.1" 200 "OK")
            ⟨[("Content-Length", "5")]⟩ (some "hello".data)) :=
  ⟨by decide, by decide, by rfl, by decide,
    parse_serialize_roundtrip
      (Message.mk (.status "HTTP/1.1" 200 "OK")
        ⟨[("Content-Length", "5")]⟩ (some "hello".data))
      (.fixed 5) (by decide) (by decide) (by rfl) (by decide)⟩

/-- C8: Only the versions `HTTP/1.0` and `HTTP/1.1` are recognised — every
successfully parsed message carries one of these two version strings, and a
request line whose version field is anything else fails with
`MalformedStartLine`. -/
theorem parsed_version_closed_set :
    (∀ (isReq : Bool) (input : List Char) (m : Message),
        parse isReq input = .ok m →
        versionOf m.startLine = "HTTP/1.0" ∨ versionOf m.startLine = "HTTP/1.1")
    ∧ (∀ (mth tgt v : List Char),
        (∀ c ∈ mth, c ≠ ' ') → (∀ c ∈ tgt, c ≠ ' ') →
        ¬ versionOk (String.mk v) →
        parseRequestLine (mth ++ ' ' :: (tgt ++ ' ' :: v))
          = .error .malformedStartLine) := by
  constructor
  · intro isReq input m hok
    unfold parse at hok
    split at hok
    · next mm hend =>
      injection hok with hok
      subst hok
      have hsl := endOfInput_complete_sl _ mm hend
      cases hsp : splitCRLF input with
      | none =>
        have hfeed : feed (.awaitingStartLine isReq []) input
            = .awaitingStartLine isReq input := by
          unfold feed
          simp only [List.nil_append]
          rw [hsp]
        rw [hfeed] at hsl
        simp [stateSL] at hsl
      | some p =>
        obtain ⟨line, rest⟩ := p
        cases hpl : parseStartLine isReq line with
        | error e =>
          have hfeed : feed (.awaitingStartLine isReq []) input = .failed e := by
            unfold feed
            simp only [List.nil_append]
            rw [hsp]
            simp only []
            rw [hpl]
          rw [hfeed] at hsl
          simp [stateSL] at hsl
        | ok sl =>
          have hfeed : feed (.awaitingStartLine isReq []) input
              = processHeaders (rest.length + 1) isReq sl ⟨[]⟩ rest := by
            unfold feed
            simp only [List.nil_append]
            rw [hsp]
            simp only []
            rw [hpl]
          rw [hfeed] at hsl
          rcases processHeaders_sl (rest.length + 1) isReq sl ⟨[]⟩ rest with hst | ⟨e, hfail⟩
          · rw [hst] at hsl
            injection hsl with hsl
            have hv := parseStartLine_versionOk isReq line sl hpl
            rw [hsl] at hv
            exact hv
          · rw [hfail] at hsl
            simp [stateSL] at hsl
    · simp at hok
    · simp at hok
  · intro mth tgt v hm ht hv
    unfold parseRequestLine
    rw [splitOn1_append ' ' mth _ hm]
    simp only []
    rw [splitOn1_append ' ' tgt _ ht]
    simp only []
    by_cases he : (mth.isEmpty || tgt.isEmpty) = true
    · rw [if_pos he]
    · rw [if_neg he, if_neg hv]

/-- Witness for C8: a parsed request carries version `HTTP/1.1`, and a
request line with version `HTTP/2.0` is rejected. -/
theorem parsed_version_closed_set_witness :
    (versionOf (Message.mk (.request "GET" "/" "HTTP/1.1") ⟨[]⟩ Option.none).startLine
        = "HTTP/1.0"
      ∨ versionOf (Message.mk (.request "GET" "/" "HTTP/1.1") ⟨[]⟩ Option.none).startLine
        = "HTTP/1.1")
    ∧ parseRequestLine ("GET".data ++ ' ' :: ("/".data ++ ' ' :: "HTTP/2.0".data))
        = .error .malformedStartLine :=
  ⟨parsed_version_closed_set.1 true ("GET / HTTP/1.1\r\n\r\n".data)
      (Message.mk (.request "GET" "/" "HTTP/1.1") ⟨[]⟩ Option.none) (by rfl),
    parsed_version_closed_set.2 "GET".data "/".data "HTTP/2.0".data
      (by decide) (by decide) (by decide)⟩

/-- C6: The `Failed` state is absorbing — any sequence of further feeds
leaves the parser in the same `Failed e`, end-of-input leaves it in
`Failed e`, and every query keeps returning the same error `e`. -/
theorem failed_state_absorbing (e : HTTPError) (chunks : List (List Char))
    (bs : List Char) :
    List.foldl feed (ParserState.failed e) chunks = .failed e
    ∧ feed (.failed e) bs = .failed e
    ∧ endOfInput (.failed e) = .failed e
    ∧ query (.failed e) = .error e := by
  refine ⟨?_, rfl, rfl, rfl⟩
  induction chunks with
  | nil => rfl
  | cons c cs ih => simpa [feed] using ih

/-- C9: With `Fixed n` framing, an end-of-input signal after fewer than
`n` body bytes fails with `UnexpectedEof`, and no feed can complete the
message with a body shorter than `n` bytes. -/
theorem fixed_truncation_unexpected_eof (sl : StartLine) (hdrs : HTTPHeader)
    (n : Nat) (buf : List Char) (_hshort : buf.length < n) :
    endOfInput (.awaitingBody sl hdrs (.fixed n) buf) = .failed .unexpectedEof
    ∧ ∀ (bs : List Char) (m : Message),
        feed (.awaitingBody sl hdrs (.fixed n) buf) bs = .complete m →
        ∃ b, m.body = some b ∧ b.length = n := by
  constructor
  · rfl
  · intro bs m hm
    have hm2 : (if n ≤ (buf ++ bs).length then
          ParserState.complete ⟨sl, hdrs, some ((buf ++ bs).take n)⟩
        else .awaitingBody sl hdrs (.fixed n) (buf ++ bs)) = .complete m := hm
    by_cases hle : n ≤ (buf ++ bs).length
    · rw [if_pos hle] at hm2
      cases hm2
      exact ⟨(buf ++ bs).take n, rfl, by rw [List.length_take]; exact Nat.min_eq_left hle⟩
    · rw [if_neg hle] at hm2
      cases hm2

/-- Witness for C9: a `Fixed 100` body truncated at 50 bytes. -/
theorem fixed_truncation_unexpected_eof_witness :
    (List.replicate 50 'a').length < 100
    ∧ (endOfInput (.awaitingBody (.request "GET" "/" "HTTP/1.1") ⟨[]⟩ (.fixed 100)
          (List.replicate 50 'a')) = .failed .unexpectedEof
      ∧ ∀ (bs : List Char) (m : Message),
          feed (.awaitingBody (.request "GET" "/" "HTTP/1.1") ⟨[]⟩ (.fixed 100)
            (List.replicate 50 'a')) bs = .complete m →
          ∃ b, m.body = some b ∧ b.length = 100) :=
  ⟨by simp,
    fixed_truncation_unexpected_eof (.request "GET" "/" "HTTP/1.1") ⟨[]⟩ 100
      (List.replicate 50 'a') (by simp)⟩

end SunWeb
